import Mathlib

/-!
Verification of the secure-pass-manager server core against its specification.

Part 1 embeds the credential cipher of
`src/server/src/handlers/credential-items.ts` (lines 7-27): AES-256-CBC with a
random 16-byte IV, hex-encoded and stored as `iv_hex ':' ciphertext_hex`, with
PKCS#7 padding applied by the Node cipher.  The AES block permutation itself is
the external `crypto` collaborator, so it is a parameter `encB`/`decB`
(16-byte block in, 16-byte block out, mutually inverse); everything the
repository's code adds around it — CBC chaining, PKCS#7 padding, hex encoding,
the `iv : ciphertext` storage format and the `split(':')` parse — is embedded
concretely.  Bytes are naturals below 256; plaintexts are byte lists (the UTF-8
bytes of the JS string); stored values are character lists.

Part 2 (further below) embeds the relational state and the handlers of
`vault-permissions.ts`, `categories.ts` and `credential-items.ts`.
-/

/-- Bytewise xor of two byte lists (CBC block combination). -/
def lxor (a b : List Nat) : List Nat :=
  List.zipWith Nat.xor a b

/-- Split a byte list into consecutive 16-byte blocks (the AES block size). -/
def chunk16 : List Nat → List (List Nat)
  | [] => []
  | a :: rest => ((a :: rest).take 16) :: chunk16 ((a :: rest).drop 16)
termination_by l => l.length
decreasing_by simp [List.length_drop]; omega

/-- Concatenate a list of blocks back into a flat byte list. -/
def cat16 : List (List Nat) → List Nat
  | [] => []
  | b :: bs => b ++ cat16 bs

/-- PKCS#7 padding as applied by the Node `cipher.final` call: append
`r = 16 - len % 16` copies of the byte `r` (always between 1 and 16). -/
def pkcs7pad (s : List Nat) : List Nat :=
  s ++ List.replicate (16 - s.length % 16) (16 - s.length % 16)

/-- PKCS#7 unpadding as performed by `decipher.final`: the last byte gives the
pad length, which must be 1..16 and match the trailing bytes, else the
decryption fails (modelled as `none`). -/
def pkcs7unpad (l : List Nat) : Option (List Nat) :=
  match l.getLast? with
  | none => none
  | some p =>
    if 1 ≤ p ∧ p ≤ 16 ∧ p ≤ l.length ∧ l.drop (l.length - p) = List.replicate p p
    then some (l.take (l.length - p))
    else none

/-- CBC encryption over a block list: each plaintext block is xored with the
previous ciphertext block (initially the IV) before the block cipher. -/
def cbcEncBlocks (encB : List Nat → List Nat) : List Nat → List (List Nat) → List (List Nat)
  | _, [] => []
  | prev, b :: bs =>
    let c := encB (lxor b prev)
    c :: cbcEncBlocks encB c bs

/-- CBC decryption over a block list. -/
def cbcDecBlocks (decB : List Nat → List Nat) : List Nat → List (List Nat) → List (List Nat)
  | _, [] => []
  | prev, c :: cs => lxor (decB c) prev :: cbcDecBlocks decB c cs

/-- Lower-case hex digit for a value below 16 (`Buffer.toString('hex')`). -/
def hexDigitChar (n : Nat) : Char :=
  match n with
  | 0 => '0' | 1 => '1' | 2 => '2' | 3 => '3'
  | 4 => '4' | 5 => '5' | 6 => '6' | 7 => '7'
  | 8 => '8' | 9 => '9' | 10 => 'a' | 11 => 'b'
  | 12 => 'c' | 13 => 'd' | 14 => 'e' | 15 => 'f'
  | _ => '0'

/-- Value of a hex digit character (`Buffer.from(·, 'hex')`). -/
def hexVal (c : Char) : Nat :=
  match c with
  | '0' => 0 | '1' => 1 | '2' => 2 | '3' => 3
  | '4' => 4 | '5' => 5 | '6' => 6 | '7' => 7
  | '8' => 8 | '9' => 9 | 'a' => 10 | 'b' => 11
  | 'c' => 12 | 'd' => 13 | 'e' => 14 | 'f' => 15
  | _ => 0

/-- Hex-encode a byte list, two characters per byte. -/
def hexEncode : List Nat → List Char
  | [] => []
  | b :: bs => hexDigitChar (b / 16) :: hexDigitChar (b % 16) :: hexEncode bs

/-- Decode a hex character list back to bytes. -/
def hexDecode : List Char → List Nat
  | c1 :: c2 :: rest => (hexVal c1 * 16 + hexVal c2) :: hexDecode rest
  | _ => []

/-- JavaScript `String.prototype.split(':')`: all colon-separated segments. -/
def splitOnColon : List Char → List (List Char)
  | [] => [[]]
  | c :: rest =>
    if c = ':' then [] :: splitOnColon rest
    else
      match splitOnColon rest with
      | [] => [[c]]
      | p :: ps => (c :: p) :: ps

/-- Embeds `encrypt` (credential-items.ts lines 11-17): draw an IV (here an
explicit parameter, standing for the `crypto.randomBytes(16)` call), CBC-encrypt
the padded plaintext under the static key (the key is folded into the block
permutation parameter `encB`), and store `iv_hex ':' ciphertext_hex`. -/
def encrypt (encB : List Nat → List Nat) (iv : List Nat) (text : List Nat) : List Char :=
  hexEncode iv ++ ':' :: hexEncode (cat16 (cbcEncBlocks encB iv (chunk16 (pkcs7pad text))))

/-- Embeds `decrypt` (credential-items.ts lines 19-27): split the stored value
on `:`, hex-decode the IV (`parts[0]`) and ciphertext (`parts[1]`), CBC-decrypt
and unpad; a padding failure in `decipher.final` is `none`. -/
def decrypt (decB : List Nat → List Nat) (stored : List Char) : Option (List Nat) :=
  let parts := splitOnColon stored
  let iv := hexDecode (parts.getD 0 [])
  let ct := hexDecode (parts.getD 1 [])
  pkcs7unpad (cat16 (cbcDecBlocks decB iv (chunk16 ct)))

/-!
### Part 2: relational state and handlers

The relational store (PostgreSQL via drizzle) is modelled as lists of rows in
insertion order, with the serial-id sequences as explicit counters; a
`db.select().where(cond)` is a `filter`, taking `[0]` of the result is
`find?`, and a thrown handler `Error` is an `Except.error` tagged with the
kind of its message.  Row timestamps (`created_at`/`updated_at`) are omitted:
no claim constrains them, and no embedded operation reads them.  The cipher is
threaded through the handlers as abstract `enc`/`dec` functions on the stored
strings (its internals are Part 1).
-/

/-- Permission levels of the `vault_permission` enum (db/schema.ts): the values
an explicit grant row can carry. -/
inductive GrantLevel
  | read
  | write
  | admin
deriving DecidableEq

/-- Effective permission values returned by the Access Control Evaluator:
the three grant levels plus the implicit `owner` level. -/
inductive Permission
  | owner
  | admin
  | write
  | read
deriving DecidableEq

/-- A grant's stored level viewed as an effective permission. -/
def GrantLevel.toPermission : GrantLevel → Permission
  | .read => .read
  | .write => .write
  | .admin => .admin

/-- Item types of the `item_type` enum (db/schema.ts). -/
inductive ItemType
  | password
  | creditCard
  | secureNote
  | softwareLicense
deriving DecidableEq

/-- A row of `users` (only the columns the embedded handlers read). -/
structure UserRow where
  id : Nat
  is_active : Bool
deriving DecidableEq

/-- A row of `vaults`. -/
structure VaultRow where
  id : Nat
  name : String
  description : Option String
  owner_id : Nat
  is_shared : Bool
deriving DecidableEq

/-- A row of `categories`. -/
structure CategoryRow where
  id : Nat
  name : String
  description : Option String
  color : Option String
  vault_id : Nat
deriving DecidableEq

/-- A row of `credential_items` (db/schema.ts): sensitive columns hold the
stored `iv:ciphertext` strings, nullable columns are `Option`. -/
structure ItemRow where
  id : Nat
  title : String
  type : ItemType
  vault_id : Nat
  category_id : Option Nat
  website_url : Option String
  username : Option String
  password_encrypted : Option String
  notes_encrypted : Option String
  card_number_encrypted : Option String
  card_holder_name : Option String
  card_expiry_date : Option String
  card_cvv_encrypted : Option String
  license_key_encrypted : Option String
  license_email : Option String
  created_by : Nat
deriving DecidableEq

/-- A row of `vault_user_permissions`. -/
structure PermRow where
  id : Nat
  vault_id : Nat
  user_id : Nat
  permission : GrantLevel
  granted_by : Nat
deriving DecidableEq

/-- The relational store: five relations in row-insertion order plus the
serial-id sequences. -/
structure DB where
  users : List UserRow
  vaults : List VaultRow
  categories : List CategoryRow
  items : List ItemRow
  perms : List PermRow
  nextVaultId : Nat
  nextCategoryId : Nat
  nextItemId : Nat
  nextPermId : Nat
deriving DecidableEq

/-- Error kinds thrown by the embedded handlers, one per distinct handler
message (§7 of the spec calls these kinds, not literal strings). -/
inductive DbError
  | vaultNotFound            -- 'Vault not found'
  | insufficientPermission   -- 'Insufficient permissions ...'
  | targetUserNotFound       -- 'Target user not found'
  | targetUserInactive       -- 'Cannot grant permissions to inactive user'
  | duplicateGrant           -- 'User already has permissions for this vault'
  | permissionNotFound       -- 'Permission not found'
  | selfModification         -- 'Cannot modify your own permissions'
  | ownerGrantProtected      -- 'Cannot revoke owner permissions'
  | itemNotFound             -- 'Credential item not found'
  | categoryNotFound         -- 'Category not found'
  | notFoundOrForbidden      -- 'Vault not found or insufficient permissions'
deriving DecidableEq

/-- Embeds `getUserPermissionForVault` (vault-permissions.ts lines 129-163):
fail if the vault is absent; report `owner` for the vault's owner before any
grant lookup; otherwise report the explicit grant's level, or null. -/
def getUserPermissionForVault (db : DB) (vaultId userId : Nat) :
    Except DbError (Option Permission) :=
  match db.vaults.find? (fun v => decide (v.id = vaultId)) with
  | none => .error .vaultNotFound
  | some vault =>
    if vault.owner_id = userId then .ok (some .owner)
    else
      match db.perms.find? (fun p => decide (p.vault_id = vaultId ∧ p.user_id = userId)) with
      | none => .ok none
      | some p => .ok (some p.permission.toPermission)

/-- Embeds the `checkVaultPermission` helper of credential-items.ts
(lines 30-75): false for a missing vault, true for the owner, else the grant
level measured against the required level. -/
def checkVaultPermissionItems (db : DB) (vaultId userId : Nat)
    (requiredPermission : GrantLevel) : Bool :=
  match db.vaults.find? (fun v => decide (v.id = vaultId)) with
  | none => false
  | some vault =>
    if vault.owner_id = userId then true
    else
      match db.perms.find? (fun p => decide (p.vault_id = vaultId ∧ p.user_id = userId)) with
      | none => false
      | some p =>
        match requiredPermission with
        | .read =>
          decide (p.permission = .read) || decide (p.permission = .write) ||
            decide (p.permission = .admin)
        | .write => decide (p.permission = .write) || decide (p.permission = .admin)
        | .admin => decide (p.permission = .admin)

/-- Embeds the `checkVaultPermission` helper of categories.ts (lines 7-55);
its logic is line-for-line that of the credential-items.ts copy (a `switch`
instead of an if-chain, `limit(1)` on the selects). -/
def checkVaultPermissionCats (db : DB) (vaultId userId : Nat)
    (requiredPermission : GrantLevel) : Bool :=
  match db.vaults.find? (fun v => decide (v.id = vaultId)) with
  | none => false
  | some vault =>
    if vault.owner_id = userId then true
    else
      match db.perms.find? (fun p => decide (p.vault_id = vaultId ∧ p.user_id = userId)) with
      | none => false
      | some p =>
        match requiredPermission with
        | .read =>
          decide (p.permission = .read) || decide (p.permission = .write) ||
            decide (p.permission = .admin)
        | .write => decide (p.permission = .write) || decide (p.permission = .admin)
        | .admin => decide (p.permission = .admin)

/-- JavaScript truthiness applied to a nullable stored string before calling
the cipher: `value ? f(value) : null` maps null and the empty string to null. -/
def mapEnc (f : String → String) (o : Option String) : Option String :=
  match o with
  | none => none
  | some s => if s = "" then none else some (f s)

/-- The decrypted view of an item row returned to callers: each of the five
sensitive columns passed through `decrypt` (credential-items.ts lines 112-119
and the identical blocks in the other read paths). -/
def decryptItem (dec : String → String) (it : ItemRow) : ItemRow :=
  { it with
    password_encrypted := mapEnc dec it.password_encrypted
    notes_encrypted := mapEnc dec it.notes_encrypted
    card_number_encrypted := mapEnc dec it.card_number_encrypted
    card_cvv_encrypted := mapEnc dec it.card_cvv_encrypted
    license_key_encrypted := mapEnc dec it.license_key_encrypted }

/-- Embeds `createVaultPermission` (vault-permissions.ts lines 6-57): caller
must have admin or owner; target user must exist and be active; no duplicate
grant row for the pair; then insert the row stamped `granted_by = caller`. -/
def createVaultPermission (db : DB) (vault_id user_id : Nat) (permission : GrantLevel)
    (grantedByUserId : Nat) : Except DbError PermRow × DB :=
  match getUserPermissionForVault db vault_id grantedByUserId with
  | .error e => (.error e, db)
  | .ok grantingUserPermission =>
    if ¬ (grantingUserPermission = some .admin ∨ grantingUserPermission = some .owner) then
      (.error .insufficientPermission, db)
    else
      match db.users.find? (fun u => decide (u.id = user_id)) with
      | none => (.error .targetUserNotFound, db)
      | some targetUser =>
        if targetUser.is_active = false then (.error .targetUserInactive, db)
        else
          match db.perms.find? (fun p => decide (p.vault_id = vault_id ∧ p.user_id = user_id)) with
          | some _ => (.error .duplicateGrant, db)
          | none =>
            let row : PermRow :=
              { id := db.nextPermId, vault_id := vault_id, user_id := user_id
                permission := permission, granted_by := grantedByUserId }
            (.ok row, { db with perms := db.perms ++ [row], nextPermId := db.nextPermId + 1 })

/-- Embeds `getUserVaults` (vault-permissions.ts lines 207-244): owned vaults
tagged `owner`, then the inner join of the caller's grant rows with vaults,
each tagged with the grant's level. -/
def getUserVaults (db : DB) (userId : Nat) : List (VaultRow × Permission) :=
  (db.vaults.filter (fun v => decide (v.owner_id = userId))).map
      (fun v => (v, Permission.owner)) ++
    (db.perms.filter (fun p => decide (p.user_id = userId))).filterMap
      (fun p => (db.vaults.find? (fun v => decide (v.id = p.vault_id))).map
        (fun v => (v, p.permission.toPermission)))

/-- Embeds `createVault` (categories.ts second module, lines 223-268): insert
the vault, grant the owner an explicit `admin` row stamped
`granted_by = owner`, and seed the four default categories. -/
def createVault (db : DB) (name : String) (description : Option String)
    (is_shared : Bool) (userId : Nat) : VaultRow × DB :=
  let vault : VaultRow :=
    { id := db.nextVaultId, name := name, description := description
      owner_id := userId, is_shared := is_shared }
  let ownerPerm : PermRow :=
    { id := db.nextPermId, vault_id := vault.id, user_id := userId
      permission := .admin, granted_by := userId }
  let cats : List CategoryRow :=
    [ { id := db.nextCategoryId, name := "Personal"
        description := some "Personal accounts and services"
        color := some "#4F46E5", vault_id := vault.id }
    , { id := db.nextCategoryId + 1, name := "Work"
        description := some "Work-related accounts"
        color := some "#059669", vault_id := vault.id }
    , { id := db.nextCategoryId + 2, name := "Banking"
        description := some "Banking and financial accounts"
        color := some "#DC2626", vault_id := vault.id }
    , { id := db.nextCategoryId + 3, name := "Social"
        description := some "Social media accounts"
        color := some "#7C2D12", vault_id := vault.id } ]
  (vault,
    { db with
      vaults := db.vaults ++ [vault]
      perms := db.perms ++ [ownerPerm]
      categories := db.categories ++ cats
      nextVaultId := db.nextVaultId + 1
      nextPermId := db.nextPermId + 1
      nextCategoryId := db.nextCategoryId + 4 })

/-- Embeds `deleteVault` (categories.ts second module, lines 410-453): one
select for `id = vaultId AND owner_id = caller` gates the whole cascade with a
single combined error; on success items, categories and grant rows of the
vault are deleted, then the vault row. -/
def deleteVault (db : DB) (id userId : Nat) : Except DbError Unit × DB :=
  match db.vaults.find? (fun v => decide (v.id = id ∧ v.owner_id = userId)) with
  | none => (.error .notFoundOrForbidden, db)
  | some _ =>
    (.ok (),
      { db with
        items := db.items.filter (fun i => decide (¬ i.vault_id = id))
        categories := db.categories.filter (fun c => decide (¬ c.vault_id = id))
        perms := db.perms.filter (fun p => decide (¬ p.vault_id = id))
        vaults := db.vaults.filter (fun v => decide (¬ v.id = id)) })

/-- Embeds `createCategory` (categories.ts lines 57-81). -/
def createCategory (db : DB) (name : String) (description color : Option String)
    (vault_id userId : Nat) : Except DbError CategoryRow × DB :=
  if checkVaultPermissionCats db vault_id userId .write = false then
    (.error .insufficientPermission, db)
  else
    let row : CategoryRow :=
      { id := db.nextCategoryId, name := name, description := description
        color := color, vault_id := vault_id }
    (.ok row, { db with categories := db.categories ++ [row]
                        nextCategoryId := db.nextCategoryId + 1 })

/-- Embeds `deleteCategory` (categories.ts lines 181-218): find the category,
require `write` on its vault, null out `category_id` on the items that
reference it, then delete the category row. -/
def deleteCategory (db : DB) (id userId : Nat) : Except DbError Unit × DB :=
  match db.categories.find? (fun c => decide (c.id = id)) with
  | none => (.error .categoryNotFound, db)
  | some category =>
    if checkVaultPermissionCats db category.vault_id userId .write = false then
      (.error .insufficientPermission, db)
    else
      (.ok (),
        { db with
          items := db.items.map (fun it =>
            if it.category_id = some id then { it with category_id := none } else it)
          categories := db.categories.filter (fun c => decide (¬ c.id = id)) })

/-- Input of `createCredentialItem` (zod `createCredentialItemInputSchema`):
all optional columns are nullable, none may be omitted. -/
structure CreateItemInput where
  title : String
  type : ItemType
  vault_id : Nat
  category_id : Option Nat
  website_url : Option String
  username : Option String
  password : Option String
  notes : Option String
  card_number : Option String
  card_holder_name : Option String
  card_expiry_date : Option String
  card_cvv : Option String
  license_key : Option String
  license_email : Option String
deriving DecidableEq

/-- Embeds `createCredentialItem` (credential-items.ts lines 77-124): require
`write` on the target vault, encrypt each populated sensitive field, insert,
and return the row decrypted back. -/
def createCredentialItem (enc dec : String → String) (db : DB)
    (input : CreateItemInput) (userId : Nat) : Except DbError ItemRow × DB :=
  if checkVaultPermissionItems db input.vault_id userId .write = false then
    (.error .insufficientPermission, db)
  else
    let row : ItemRow :=
      { id := db.nextItemId, title := input.title, type := input.type
        vault_id := input.vault_id, category_id := input.category_id
        website_url := input.website_url, username := input.username
        password_encrypted := mapEnc enc input.password
        notes_encrypted := mapEnc enc input.notes
        card_number_encrypted := mapEnc enc input.card_number
        card_holder_name := input.card_holder_name
        card_expiry_date := input.card_expiry_date
        card_cvv_encrypted := mapEnc enc input.card_cvv
        license_key_encrypted := mapEnc enc input.license_key
        license_email := input.license_email
        created_by := userId }
    (.ok (decryptItem dec row),
      { db with items := db.items ++ [row], nextItemId := db.nextItemId + 1 })

/-- Embeds `getItemById` (credential-items.ts lines 225-257): a missing item
returns null (not an error); an existing item requires `read` on its vault and
is returned decrypted. -/
def getItemById (dec : String → String) (db : DB) (id userId : Nat) :
    Except DbError (Option ItemRow) :=
  match db.items.find? (fun i => decide (i.id = id)) with
  | none => .ok none
  | some item =>
    if checkVaultPermissionItems db item.vault_id userId .read then
      .ok (some (decryptItem dec item))
    else .error .insufficientPermission

/-- Search filter (zod `searchItemsInputSchema`): `category_id` distinguishes
omitted (`none`) from explicit null (`some none`). -/
structure SearchInput where
  vault_id : Option Nat
  category_id : Option (Option Nat)
  type : Option ItemType
  query : Option String
deriving DecidableEq

/-- Case-insensitive check that `needle` occurs at the start of `hay`. -/
def leadMatch : List Char → List Char → Bool
  | [], _ => true
  | _ :: _, [] => false
  | a :: as, b :: bs => decide (a = b) && leadMatch as bs

/-- Substring occurrence check over character lists. -/
def subMatch (needle : List Char) : List Char → Bool
  | [] => leadMatch needle []
  | c :: rest => leadMatch needle (c :: rest) || subMatch needle rest

/-- PostgreSQL `ilike '%q%'` on the title: case-insensitive containment. -/
def titleIlike (title q : String) : Bool :=
  subMatch (q.data.map Char.toLower) (title.data.map Char.toLower)

/-- The category, type and text conditions `searchItems` pushes onto its
conditions array (credential-items.ts lines 287-305), conjoined; an absent
filter contributes no condition. -/
def matchesFilters (input : SearchInput) (i : ItemRow) : Bool :=
  (match input.category_id with
   | none => true
   | some none => decide (i.category_id = none)
   | some (some c) => decide (i.category_id = some c)) &&
  (match input.type with
   | none => true
   | some t => decide (i.type = t)) &&
  (match input.query with
   | none => true
   | some q => if q.trim = "" then true else titleIlike i.title q.trim)

/-- Embeds `searchItems` (credential-items.ts lines 259-327): with a
`vault_id` the caller needs `read` on it; without one the handler collects the
caller's owned vaults and, "for simplicity", searches only the first of them
(`vaultIds[0]`), returning nothing when the caller owns no vault. -/
def searchItems (dec : String → String) (db : DB) (input : SearchInput)
    (userId : Nat) : Except DbError (List ItemRow) :=
  match input.vault_id with
  | some vid =>
    if checkVaultPermissionItems db vid userId .read = false then
      .error .insufficientPermission
    else
      .ok ((db.items.filter (fun i => decide (i.vault_id = vid) && matchesFilters input i)).map
        (decryptItem dec))
  | none =>
    match db.vaults.filter (fun v => decide (v.owner_id = userId)) with
    | [] => .ok []
    | v0 :: _ =>
      .ok ((db.items.filter (fun i => decide (i.vault_id = v0.id) && matchesFilters input i)).map
        (decryptItem dec))

/-! ### Concrete sample stores used by witnesses and counterexamples -/

/-- Sample state for witnesses: user 2 owns vault 1; user 5 holds an explicit
`read` grant on it; user 7 is deactivated. -/
def sampleDB : DB :=
  { users := [⟨2, true⟩, ⟨5, true⟩, ⟨7, false⟩]
    vaults := [⟨1, "Team", none, 2, false⟩]
    categories := []
    items := []
    perms := [⟨1, 1, 5, .read, 2⟩]
    nextVaultId := 2, nextCategoryId := 1, nextItemId := 1, nextPermId := 2 }

/-- One active user, no vaults at all. -/
def sampleNoVaultDB : DB :=
  { users := [⟨1, true⟩]
    vaults := [], categories := [], items := [], perms := []
    nextVaultId := 1, nextCategoryId := 1, nextItemId := 1, nextPermId := 1 }

/-- Two active users; user 2 owns vault 1; no grant rows. -/
def sampleNoGrantDB : DB :=
  { users := [⟨2, true⟩, ⟨5, true⟩]
    vaults := [⟨1, "Team", none, 2, false⟩]
    categories := [], items := [], perms := []
    nextVaultId := 2, nextCategoryId := 1, nextItemId := 1, nextPermId := 1 }

/-- One user owning vault 1 with one category. -/
def sampleOwnedDB : DB :=
  { users := [⟨1, true⟩]
    vaults := [⟨1, "Mine", none, 1, false⟩]
    categories := [⟨2, "Personal", none, none, 1⟩]
    items := [], perms := []
    nextVaultId := 2, nextCategoryId := 3, nextItemId := 1, nextPermId := 1 }

/-- Item 10: a password item in vault 1 referencing category 5. -/
def sampleItemA : ItemRow :=
  { id := 10, title := "gmail", type := .password, vault_id := 1
    category_id := some 5, website_url := none, username := none
    password_encrypted := none, notes_encrypted := none
    card_number_encrypted := none, card_holder_name := none
    card_expiry_date := none, card_cvv_encrypted := none
    license_key_encrypted := none, license_email := none, created_by := 1 }

/-- Item 11: a secure note in vault 1 with no category. -/
def sampleItemB : ItemRow :=
  { id := 11, title := "bank", type := .secureNote, vault_id := 1
    category_id := none, website_url := none, username := none
    password_encrypted := none, notes_encrypted := none
    card_number_encrypted := none, card_holder_name := none
    card_expiry_date := none, card_cvv_encrypted := none
    license_key_encrypted := none, license_email := none, created_by := 1 }

/-- One user owning vault 1; category 5 in it; item 10 references category 5,
item 11 references no category. -/
def sampleCatDB : DB :=
  { users := [⟨1, true⟩]
    vaults := [⟨1, "Mine", none, 1, false⟩]
    categories := [⟨5, "Work", none, none, 1⟩]
    items := [sampleItemA, sampleItemB]
    perms := []
    nextVaultId := 2, nextCategoryId := 6, nextItemId := 12, nextPermId := 1 }

/-- The empty search filter: no vault, category, type or text condition. -/
def emptyFilter : SearchInput := ⟨none, none, none, none⟩

/-- Item 10 again, but housed in vault 2. -/
def sampleItemC : ItemRow :=
  { id := 10, title := "gmail", type := .password, vault_id := 2
    category_id := none, website_url := none, username := none
    password_encrypted := none, notes_encrypted := none
    card_number_encrypted := none, card_holder_name := none
    card_expiry_date := none, card_cvv_encrypted := none
    license_key_encrypted := none, license_email := none, created_by := 1 }

/-- User 1 owns two vaults; the only item lives in the second one. -/
def sampleTwoVaultDB : DB :=
  { users := [⟨1, true⟩]
    vaults := [⟨1, "First", none, 1, false⟩, ⟨2, "Second", none, 1, false⟩]
    categories := []
    items := [sampleItemC]
    perms := []
    nextVaultId := 3, nextCategoryId := 1, nextItemId := 11, nextPermId := 1 }

/-! ### Lemmas about the cipher embedding -/

theorem lxor_length (a b : List Nat) : (lxor a b).length = min a.length b.length :=
  List.length_zipWith _ _ _

theorem lxor_lxor_cancel : ∀ (a b : List Nat), a.length = b.length →
    lxor (lxor a b) b = a
  | [], [], _ => rfl
  | x :: xs, y :: ys, h => by
    have h' : xs.length = ys.length := by simpa using h
    simp only [lxor, List.zipWith_cons_cons, List.cons.injEq]
    exact ⟨Nat.xor_cancel_right y x, lxor_lxor_cancel xs ys h'⟩
  | [], _ :: _, h => by simp at h
  | _ :: _, [], h => by simp at h

theorem lxor_mem_lt (a b : List Nat) (ha : ∀ x ∈ a, x < 256) (hb : ∀ x ∈ b, x < 256) :
    ∀ x ∈ lxor a b, x < 256 := by
  induction a generalizing b with
  | nil => simp [lxor]
  | cons x xs ih =>
    cases b with
    | nil => simp [lxor]
    | cons y ys =>
      intro z hz
      simp only [lxor, List.zipWith_cons_cons, List.mem_cons] at hz
      rcases hz with h | h
      · subst h
        have : (256 : Nat) = 2 ^ 8 := by norm_num
        rw [this]
        exact Nat.xor_lt_two_pow (by have := ha x (by simp); omega)
          (by have := hb y (by simp); omega)
      · exact ih ys (fun u hu => ha u (by simp [hu])) (fun u hu => hb u (by simp [hu])) z h

theorem cbcDec_cbcEnc (encB decB : List Nat → List Nat)
    (h1 : ∀ b, b.length = 16 → decB (encB b) = b)
    (h2 : ∀ b, b.length = 16 → (encB b).length = 16) :
    ∀ (bs : List (List Nat)) (prev : List Nat), prev.length = 16 →
      (∀ b ∈ bs, b.length = 16) →
      cbcDecBlocks decB prev (cbcEncBlocks encB prev bs) = bs := by
  intro bs
  induction bs with
  | nil => intro prev _ _; rfl
  | cons b bs ih =>
    intro prev hprev hlen
    have hb : b.length = 16 := hlen b (by simp)
    have hxlen : (lxor b prev).length = 16 := by
      rw [lxor_length, hb, hprev]; simp
    simp only [cbcEncBlocks, cbcDecBlocks, List.cons.injEq]
    constructor
    · rw [h1 _ hxlen]
      exact lxor_lxor_cancel b prev (by omega)
    · exact ih (encB (lxor b prev)) (h2 _ hxlen) (fun x hx => hlen x (by simp [hx]))

theorem cbcEncBlocks_len (encB : List Nat → List Nat)
    (h2 : ∀ b, b.length = 16 → (encB b).length = 16) :
    ∀ (bs : List (List Nat)) (prev : List Nat), prev.length = 16 →
      (∀ b ∈ bs, b.length = 16) →
      ∀ c ∈ cbcEncBlocks encB prev bs, c.length = 16 := by
  intro bs
  induction bs with
  | nil => intro prev _ _; simp [cbcEncBlocks]
  | cons b bs ih =>
    intro prev hprev hlen c hc
    have hb : b.length = 16 := hlen b (by simp)
    have hxlen : (lxor b prev).length = 16 := by rw [lxor_length, hb, hprev]; omega
    simp only [cbcEncBlocks, List.mem_cons] at hc
    rcases hc with h | h
    · subst h; exact h2 _ hxlen
    · exact ih (encB (lxor b prev)) (h2 _ hxlen) (fun x hx => hlen x (by simp [hx])) c h

theorem cbcEncBlocks_bytes (encB : List Nat → List Nat)
    (h2 : ∀ b, b.length = 16 → (encB b).length = 16)
    (h3 : ∀ b, b.length = 16 → (∀ x ∈ b, x < 256) → ∀ x ∈ encB b, x < 256) :
    ∀ (bs : List (List Nat)) (prev : List Nat), prev.length = 16 →
      (∀ x ∈ prev, x < 256) →
      (∀ b ∈ bs, b.length = 16) → (∀ b ∈ bs, ∀ x ∈ b, x < 256) →
      ∀ c ∈ cbcEncBlocks encB prev bs, ∀ x ∈ c, x < 256 := by
  intro bs
  induction bs with
  | nil => intro prev _ _ _ _; simp [cbcEncBlocks]
  | cons b bs ih =>
    intro prev hprev hprevb hlen hbytes c hc
    have hb : b.length = 16 := hlen b (by simp)
    have hxlen : (lxor b prev).length = 16 := by rw [lxor_length, hb, hprev]; omega
    have hxbytes : ∀ x ∈ lxor b prev, x < 256 :=
      lxor_mem_lt b prev (hbytes b (by simp)) hprevb
    simp only [cbcEncBlocks, List.mem_cons] at hc
    rcases hc with h | h
    · subst h; exact h3 _ hxlen hxbytes
    · exact ih (encB (lxor b prev)) (h2 _ hxlen) (h3 _ hxlen hxbytes)
        (fun x hx => hlen x (by simp [hx])) (fun x hx => hbytes x (by simp [hx])) c h

theorem chunk16_nil : chunk16 [] = [] := by rw [chunk16]

theorem chunk16_cons (a : Nat) (rest : List Nat) :
    chunk16 (a :: rest) = ((a :: rest).take 16) :: chunk16 ((a :: rest).drop 16) := by
  rw [chunk16]

theorem chunk16_append_of_len16 (b r : List Nat) (hb : b.length = 16) :
    chunk16 (b ++ r) = b :: chunk16 r := by
  cases b with
  | nil => simp at hb
  | cons x xs =>
    rw [List.cons_append, chunk16_cons, ← List.cons_append,
      List.take_left' hb, List.drop_left' hb]

theorem chunk16_cat16 (blocks : List (List Nat)) (h : ∀ b ∈ blocks, b.length = 16) :
    chunk16 (cat16 blocks) = blocks := by
  induction blocks with
  | nil => simp [cat16, chunk16_nil]
  | cons b bs ih =>
    rw [cat16, chunk16_append_of_len16 b _ (h b (by simp)),
      ih (fun x hx => h x (by simp [hx]))]

theorem cat16_chunk16_aux : ∀ (n : Nat) (l : List Nat), l.length ≤ n →
    cat16 (chunk16 l) = l := by
  intro n
  induction n with
  | zero =>
    intro l hl
    have : l = [] := List.length_eq_zero.mp (by omega)
    subst this; simp [chunk16_nil, cat16]
  | succ n ih =>
    intro l hl
    cases l with
    | nil => simp [chunk16_nil, cat16]
    | cons a rest =>
      have hlc : (a :: rest).length = rest.length + 1 := by simp
      rw [chunk16_cons, cat16]
      rw [ih ((a :: rest).drop 16) (by simp [List.length_drop]; omega)]
      exact List.take_append_drop 16 (a :: rest)

theorem cat16_chunk16 (l : List Nat) : cat16 (chunk16 l) = l :=
  cat16_chunk16_aux l.length l (le_refl _)

theorem chunk16_blocks_len : ∀ (n : Nat) (l : List Nat), l.length ≤ n →
    l.length % 16 = 0 → ∀ b ∈ chunk16 l, b.length = 16 := by
  intro n
  induction n with
  | zero =>
    intro l hl _
    have : l = [] := List.length_eq_zero.mp (by omega)
    subst this; simp [chunk16_nil]
  | succ n ih =>
    intro l hl hmod b hb
    cases l with
    | nil => simp [chunk16_nil] at hb
    | cons a rest =>
      rw [chunk16_cons, List.mem_cons] at hb
      have hlen : (a :: rest).length = rest.length + 1 := by simp
      have h16 : 16 ≤ (a :: rest).length := by
        rcases Nat.lt_or_ge (a :: rest).length 16 with h | h
        · exfalso; omega
        · exact h
      rcases hb with h | h
      · subst h; simp [List.length_take]; omega
      · exact ih ((a :: rest).drop 16) (by simp [List.length_drop]; omega)
          (by simp [List.length_drop]; omega) b h

theorem cat16_mem (blocks : List (List Nat)) (x : Nat) (hx : x ∈ cat16 blocks) :
    ∃ b ∈ blocks, x ∈ b := by
  induction blocks with
  | nil => simp [cat16] at hx
  | cons b bs ih =>
    rw [cat16, List.mem_append] at hx
    rcases hx with h | h
    · exact ⟨b, by simp, h⟩
    · obtain ⟨c, hc, hxc⟩ := ih h
      exact ⟨c, by simp [hc], hxc⟩

theorem chunk16_mem : ∀ (n : Nat) (l : List Nat), l.length ≤ n →
    ∀ b ∈ chunk16 l, ∀ x ∈ b, x ∈ l := by
  intro n
  induction n with
  | zero =>
    intro l hl
    have : l = [] := List.length_eq_zero.mp (by omega)
    subst this; simp [chunk16_nil]
  | succ n ih =>
    intro l hl b hb x hx
    cases l with
    | nil => simp [chunk16_nil] at hb
    | cons a rest =>
      rw [chunk16_cons, List.mem_cons] at hb
      have hlen : (a :: rest).length = rest.length + 1 := by simp
      rcases hb with h | h
      · subst h; exact List.mem_of_mem_take hx
      · exact List.mem_of_mem_drop
          (ih ((a :: rest).drop 16) (by simp [List.length_drop]; omega) b h x hx)

theorem pkcs7pad_len_mod (s : List Nat) : (pkcs7pad s).length % 16 = 0 := by
  have h := Nat.mod_lt s.length (show 0 < 16 by omega)
  simp [pkcs7pad, List.length_append, List.length_replicate]
  omega

theorem pkcs7pad_bytes (s : List Nat) (h : ∀ x ∈ s, x < 256) :
    ∀ x ∈ pkcs7pad s, x < 256 := by
  intro x hx
  rw [pkcs7pad, List.mem_append] at hx
  rcases hx with hx | hx
  · exact h x hx
  · have := List.eq_of_mem_replicate hx
    omega

theorem pkcs7unpad_pkcs7pad (s : List Nat) : pkcs7unpad (pkcs7pad s) = some s := by
  have hmod := Nat.mod_lt s.length (show 0 < 16 by omega)
  obtain ⟨r, hr⟩ : ∃ r, 16 - s.length % 16 = r := ⟨_, rfl⟩
  have hr1 : 1 ≤ r := by omega
  have hr16 : r ≤ 16 := by omega
  have hpad : pkcs7pad s = s ++ List.replicate r r := by rw [pkcs7pad, hr]
  obtain ⟨r', hr'⟩ : ∃ r', r = r' + 1 := ⟨r - 1, by omega⟩
  have hrep : List.replicate r r = List.replicate r' r ++ [r] := by
    rw [hr']
    exact List.replicate_succ' r' (r' + 1)
  have hlast : (pkcs7pad s).getLast? = some r := by
    rw [hpad, hrep, ← List.append_assoc]
    exact List.getLast?_concat _
  have hlen : (pkcs7pad s).length = s.length + r := by
    rw [hpad]; simp [List.length_append, List.length_replicate]
  have hsub : (pkcs7pad s).length - r = s.length := by omega
  have hdrop : (pkcs7pad s).drop ((pkcs7pad s).length - r) = List.replicate r r := by
    rw [hsub, hpad, List.drop_left]
  have htake : (pkcs7pad s).take ((pkcs7pad s).length - r) = s := by
    rw [hsub, hpad, List.take_left]
  simp only [pkcs7unpad, hlast]
  rw [if_pos ⟨hr1, hr16, by omega, hdrop⟩, htake]

theorem hexVal_hexDigitChar (n : Nat) (h : n < 16) : hexVal (hexDigitChar n) = n := by
  interval_cases n <;> rfl

theorem hexDigitChar_ne_colon (n : Nat) (h : n < 16) : hexDigitChar n ≠ ':' := by
  interval_cases n <;> decide

theorem hexDecode_hexEncode (bs : List Nat) (h : ∀ x ∈ bs, x < 256) :
    hexDecode (hexEncode bs) = bs := by
  induction bs with
  | nil => rfl
  | cons b bs ih =>
    have hb : b < 256 := h b (by simp)
    have hdiv : b / 16 < 16 := by omega
    have hmod : b % 16 < 16 := by omega
    rw [hexEncode, hexDecode, hexVal_hexDigitChar _ hdiv, hexVal_hexDigitChar _ hmod,
      ih (fun x hx => h x (by simp [hx]))]
    congr 1
    omega

theorem colon_not_mem_hexEncode (bs : List Nat) (h : ∀ x ∈ bs, x < 256) :
    ':' ∉ hexEncode bs := by
  induction bs with
  | nil => simp [hexEncode]
  | cons b bs ih =>
    have hb : b < 256 := h b (by simp)
    rw [hexEncode]
    intro hmem
    simp only [List.mem_cons] at hmem
    rcases hmem with h' | h' | h'
    · exact hexDigitChar_ne_colon (b / 16) (by omega) h'.symm
    · exact hexDigitChar_ne_colon (b % 16) (by omega) h'.symm
    · exact ih (fun x hx => h x (by simp [hx])) h'

theorem length_hexEncode (bs : List Nat) : (hexEncode bs).length = 2 * bs.length := by
  induction bs with
  | nil => rfl
  | cons b bs ih => rw [hexEncode]; simp [ih]; omega

theorem splitOnColon_no_colon (l : List Char) (h : ':' ∉ l) : splitOnColon l = [l] := by
  induction l with
  | nil => rfl
  | cons c rest ih =>
    have hc : ¬ (c = ':') := fun hc => h (by simp [hc])
    rw [splitOnColon, if_neg hc, ih (fun hm => h (by simp [hm]))]

theorem splitOnColon_append (l r : List Char) (h : ':' ∉ l) :
    splitOnColon (l ++ ':' :: r) = l :: splitOnColon r := by
  induction l with
  | nil => simp [splitOnColon]
  | cons c rest ih =>
    have hc : ¬ (c = ':') := fun hc => h (by simp [hc])
    rw [List.cons_append, splitOnColon, if_neg hc, ih (fun hm => h (by simp [hm]))]

/-- C4: for every non-empty byte string s, `decrypt (encrypt s) = s`; two
encryptions of the same s under distinct fresh 16-byte IVs produce different
stored values; and every value produced by `encrypt` has the stored form
`iv_hex ':' ciphertext_hex`, so decryption needs only the stored value and the
static key (folded into the block-cipher parameters).  The block cipher is the
external AES-256 collaborator, assumed to be a length-preserving inverse pair
on 16-byte blocks. -/
theorem encrypt_decrypt_roundtrip_and_iv_freshness
    (encB decB : List Nat → List Nat)
    (h1 : ∀ b, b.length = 16 → decB (encB b) = b)
    (h2 : ∀ b, b.length = 16 → (encB b).length = 16)
    (h3 : ∀ b, b.length = 16 → (∀ x ∈ b, x < 256) → ∀ x ∈ encB b, x < 256)
    (s : List Nat) (_hs : s ≠ []) (hsb : ∀ x ∈ s, x < 256)
    (iv : List Nat) (hiv : iv.length = 16) (hivb : ∀ x ∈ iv, x < 256) :
    decrypt decB (encrypt encB iv s) = some s ∧
    (∀ iv2, iv2.length = 16 → (∀ x ∈ iv2, x < 256) → iv2 ≠ iv →
      encrypt encB iv2 s ≠ encrypt encB iv s) ∧
    encrypt encB iv s =
      hexEncode iv ++ ':' :: hexEncode (cat16 (cbcEncBlocks encB iv (chunk16 (pkcs7pad s)))) := by
  have hpadmod := pkcs7pad_len_mod s
  have hpadbytes := pkcs7pad_bytes s hsb
  have hblocks_len : ∀ b ∈ chunk16 (pkcs7pad s), b.length = 16 :=
    chunk16_blocks_len (pkcs7pad s).length (pkcs7pad s) (le_refl _) hpadmod
  have hblocks_bytes : ∀ b ∈ chunk16 (pkcs7pad s), ∀ x ∈ b, x < 256 :=
    fun b hb x hx => hpadbytes x (chunk16_mem (pkcs7pad s).length (pkcs7pad s) (le_refl _) b hb x hx)
  have hctlen : ∀ c ∈ cbcEncBlocks encB iv (chunk16 (pkcs7pad s)), c.length = 16 :=
    cbcEncBlocks_len encB h2 _ iv hiv hblocks_len
  have hctbytes : ∀ x ∈ cat16 (cbcEncBlocks encB iv (chunk16 (pkcs7pad s))), x < 256 := by
    intro x hx
    obtain ⟨c, hc, hxc⟩ := cat16_mem _ x hx
    exact cbcEncBlocks_bytes encB h2 h3 _ iv hiv hivb hblocks_len hblocks_bytes c hc x hxc
  have hcolon_iv : ':' ∉ hexEncode iv := colon_not_mem_hexEncode iv hivb
  have hcolon_ct : ':' ∉ hexEncode (cat16 (cbcEncBlocks encB iv (chunk16 (pkcs7pad s)))) :=
    colon_not_mem_hexEncode _ hctbytes
  have hsplit : splitOnColon (encrypt encB iv s) =
      [hexEncode iv, hexEncode (cat16 (cbcEncBlocks encB iv (chunk16 (pkcs7pad s))))] := by
    rw [encrypt, splitOnColon_append _ _ hcolon_iv, splitOnColon_no_colon _ hcolon_ct]
  refine ⟨?_, ?_, rfl⟩
  · show pkcs7unpad (cat16 (cbcDecBlocks decB
        (hexDecode ((splitOnColon (encrypt encB iv s)).getD 0 []))
        (chunk16 (hexDecode ((splitOnColon (encrypt encB iv s)).getD 1 []))))) = some s
    rw [hsplit]
    show pkcs7unpad (cat16 (cbcDecBlocks decB (hexDecode (hexEncode iv))
        (chunk16 (hexDecode (hexEncode (cat16 (cbcEncBlocks encB iv (chunk16 (pkcs7pad s))))))))) = some s
    rw [hexDecode_hexEncode iv hivb, hexDecode_hexEncode _ hctbytes,
      chunk16_cat16 _ hctlen,
      cbcDec_cbcEnc encB decB h1 h2 _ iv hiv hblocks_len,
      cat16_chunk16]
    exact pkcs7unpad_pkcs7pad s
  · intro iv2 hiv2 hiv2b hne heq
    rw [encrypt, encrypt] at heq
    have hlen2 : (hexEncode iv2).length = (hexEncode iv).length := by
      rw [length_hexEncode, length_hexEncode, hiv2, hiv]
    have hpre := (List.append_inj heq hlen2).1
    have : iv2 = iv := by
      have h4 := congrArg hexDecode hpre
      rwa [hexDecode_hexEncode iv2 hiv2b, hexDecode_hexEncode iv hivb] at h4
    exact hne this

/-- Witness for C4: the round trip evaluated at the concrete plaintext
`[104, 105]` and the zero-to-fifteen IV, instantiating the abstract block
cipher with block reversal (its own inverse). -/
theorem encrypt_decrypt_roundtrip_witness :
    decrypt (fun b => b.reverse)
      (encrypt (fun b => b.reverse) [0,1,2,3,4,5,6,7,8,9,10,11,12,13,14,15] [104, 105]) =
      some [104, 105] :=
  (encrypt_decrypt_roundtrip_and_iv_freshness (fun b => b.reverse) (fun b => b.reverse)
    (fun b _ => List.reverse_reverse b)
    (fun b hb => by simpa using hb)
    (fun b _ hb x hx => hb x (List.mem_reverse.mp hx))
    [104, 105] (by decide) (by decide)
    [0,1,2,3,4,5,6,7,8,9,10,11,12,13,14,15] (by decide) (by decide)).1

/-! ### Claim theorems: the Access Control Evaluator -/

/-- C1: `getUserPermissionForVault` fails with `NotFound` exactly when no vault
with the given id exists; for an existing vault it returns `owner` exactly when
the vault's `owner_id` equals the user (ownership checked before and taking
precedence over any grant row); otherwise it returns the explicit grant row's
permission, or null when no such row exists. -/
theorem permissionFor_characterization (db : DB) (v u : Nat) :
    (db.vaults.find? (fun w => decide (w.id = v)) = none ↔
      getUserPermissionForVault db v u = .error .vaultNotFound) ∧
    (∀ V, db.vaults.find? (fun w => decide (w.id = v)) = some V → V.owner_id = u →
      getUserPermissionForVault db v u = .ok (some .owner)) ∧
    (∀ V, db.vaults.find? (fun w => decide (w.id = v)) = some V → V.owner_id ≠ u →
      getUserPermissionForVault db v u =
        .ok ((db.perms.find? (fun p => decide (p.vault_id = v ∧ p.user_id = u))).map
          (fun p => p.permission.toPermission))) ∧
    (getUserPermissionForVault db v u = .ok (some .owner) ↔
      ∃ V, db.vaults.find? (fun w => decide (w.id = v)) = some V ∧ V.owner_id = u) := by
  unfold getUserPermissionForVault
  cases hv : db.vaults.find? (fun w => decide (w.id = v)) with
  | none => simp
  | some V =>
    by_cases ho : V.owner_id = u
    · simp [ho]
    · simp only [if_neg ho]
      refine ⟨by simp [reduceCtorEq]; split <;> simp, ?_, ?_, ?_⟩
      · intro V' hV' hV'o
        exact absurd (by injection hV' with h; rw [h]; exact hV'o) ho
      · intro V' _ _
        cases hp : db.perms.find? (fun p => decide (p.vault_id = v ∧ p.user_id = u)) <;> simp
      · constructor
        · intro h
          cases hp : db.perms.find? (fun p => decide (p.vault_id = v ∧ p.user_id = u)) with
          | none => rw [hp] at h; simp at h
          | some p =>
            rw [hp] at h
            simp only [Except.ok.injEq, Option.some.injEq] at h
            cases hperm : p.permission <;> rw [hperm] at h <;> simp [GrantLevel.toPermission] at h
        · intro ⟨V', hV', hV'o⟩
          exact absurd (by injection hV' with h; rw [h]; exact hV'o) ho

/-- Witness for C1: on `sampleDB` the evaluator reports `owner` for the owner
(user 2) and the grant level `read` for the granted user 5. -/
theorem permissionFor_characterization_witness :
    getUserPermissionForVault sampleDB 1 2 = .ok (some .owner) ∧
    getUserPermissionForVault sampleDB 1 5 = .ok (some .read) :=
  ⟨(permissionFor_characterization sampleDB 1 2).2.1 ⟨1, "Team", none, 2, false⟩ rfl rfl,
   ((permissionFor_characterization sampleDB 1 5).2.2.1 ⟨1, "Team", none, 2, false⟩ rfl
     (by decide)).trans rfl⟩

/-- C3: both copies of the permission gate are monotone in
`owner > admin > write > read > none`: given the caller's effective permission
`eff` on an existing vault (as reported by the evaluator), a `write`-gated
check succeeds exactly for owner, admin or write, and a `read`-gated check
succeeds exactly for the four non-null levels. -/
theorem checkVaultPermission_monotone (db : DB) (v u : Nat) (eff : Option Permission)
    (h : getUserPermissionForVault db v u = .ok eff) :
    (checkVaultPermissionItems db v u .write = true ↔
      eff = some .owner ∨ eff = some .admin ∨ eff = some .write) ∧
    (checkVaultPermissionItems db v u .read = true ↔
      eff = some .owner ∨ eff = some .admin ∨ eff = some .write ∨ eff = some .read) ∧
    (checkVaultPermissionCats db v u .write = true ↔
      eff = some .owner ∨ eff = some .admin ∨ eff = some .write) ∧
    (checkVaultPermissionCats db v u .read = true ↔
      eff = some .owner ∨ eff = some .admin ∨ eff = some .write ∨ eff = some .read) := by
  cases hv : db.vaults.find? (fun w => decide (w.id = v)) with
  | none =>
    simp only [getUserPermissionForVault, hv] at h
    exact Except.noConfusion h
  | some V =>
    by_cases ho : V.owner_id = u
    · simp only [getUserPermissionForVault, hv, if_pos ho, Except.ok.injEq] at h
      subst h
      simp [checkVaultPermissionItems, checkVaultPermissionCats, hv, ho]
    · cases hp : db.perms.find? (fun p => decide (p.vault_id = v ∧ p.user_id = u)) with
      | none =>
        simp only [getUserPermissionForVault, hv, if_neg ho, hp, Except.ok.injEq] at h
        subst h
        simp only [Bool.decide_and] at hp
        simp [checkVaultPermissionItems, checkVaultPermissionCats, hv, ho, hp]
      | some p =>
        simp only [getUserPermissionForVault, hv, if_neg ho, hp, Except.ok.injEq] at h
        subst h
        simp only [Bool.decide_and] at hp
        cases hperm : p.permission <;>
          simp [checkVaultPermissionItems, checkVaultPermissionCats, hv, ho, hp, hperm,
            GrantLevel.toPermission]

/-- Witness for C3: on `sampleDB`, user 5 with effective permission `read`
passes the read gate and fails the write gate. -/
theorem checkVaultPermission_monotone_witness :
    checkVaultPermissionItems sampleDB 1 5 .read = true ∧
    checkVaultPermissionItems sampleDB 1 5 .write = false :=
  ⟨(checkVaultPermission_monotone sampleDB 1 5 (some .read) rfl).2.1.mpr
      (Or.inr (Or.inr (Or.inr rfl))),
   by
    have h := (checkVaultPermission_monotone sampleDB 1 5 (some .read) rfl).1
    cases hb : checkVaultPermissionItems sampleDB 1 5 .write with
    | false => rfl
    | true => rcases h.mp hb with h' | h' | h' <;> simp at h'⟩

/-- C10: for a vault id with no vault row, both copies of the shared permission
helper report `false` for every required level, so `createCredentialItem` and
`createCategory` invoked with a nonexistent `vault_id` fail with the
insufficient-permission error (not a vault-not-found error), leaving the store
unchanged. -/
theorem missingVault_reports_insufficientPermission (db : DB) (vid u : Nat)
    (h : db.vaults.find? (fun v => decide (v.id = vid)) = none) :
    (∀ r, checkVaultPermissionItems db vid u r = false) ∧
    (∀ r, checkVaultPermissionCats db vid u r = false) ∧
    (∀ (enc dec : String → String) (input : CreateItemInput), input.vault_id = vid →
      createCredentialItem enc dec db input u = (.error .insufficientPermission, db)) ∧
    (∀ (name : String) (description color : Option String),
      createCategory db name description color vid u =
        (.error .insufficientPermission, db)) := by
  have hitems : ∀ r, checkVaultPermissionItems db vid u r = false := by
    intro r
    simp [checkVaultPermissionItems, h]
  have hcats : ∀ r, checkVaultPermissionCats db vid u r = false := by
    intro r
    simp [checkVaultPermissionCats, h]
  refine ⟨hitems, hcats, ?_, ?_⟩
  · intro enc dec input hiv
    unfold createCredentialItem
    rw [hiv, hitems .write]
    simp
  · intro name description color
    unfold createCategory
    rw [hcats .write]
    simp

/-- Witness for C10: on the one-user store with no vaults, creating an item or
category in the nonexistent vault 9 fails with the insufficient-permission
error. -/
theorem missingVault_reports_insufficientPermission_witness :
    createCategory sampleNoVaultDB "Work" none none 9 1 =
      (.error .insufficientPermission, sampleNoVaultDB) :=
  (missingVault_reports_insufficientPermission sampleNoVaultDB 9 1 rfl).2.2.2 "Work" none none

/-! ### Claim theorems: the Permission Grant Manager -/

/-- Counterexample for C6: with no vault 1 in the store, `createVaultPermission`
fails with the propagated vault-not-found error of the evaluator, not with the
insufficient-permission error the claim prescribes for every caller whose
effective permission is not admin or owner. -/
theorem createVaultPermission_missingVault_counterexample :
    createVaultPermission sampleNoVaultDB 1 1 .read 1 =
      (.error .vaultNotFound, sampleNoVaultDB) ∧
    DbError.vaultNotFound ≠ DbError.insufficientPermission := by
  exact ⟨rfl, by decide⟩

/-- C6 (amended): when the vault does not exist the call fails with the
evaluator's vault-not-found error; otherwise it fails with the
insufficient-permission error unless the caller's effective permission is
admin or owner; given that, it fails target-not-found if the target user does
not exist, then target-inactive if deactivated, then duplicate-grant if a row
for (vault, user) exists; otherwise it inserts exactly one new grant row with
the requested level and `granted_by = caller`, and returns it. -/
theorem createVaultPermission_cascade (db : DB) (vid uid : Nat) (lvl : GrantLevel)
    (caller : Nat) :
    (getUserPermissionForVault db vid caller = .error .vaultNotFound →
      createVaultPermission db vid uid lvl caller = (.error .vaultNotFound, db)) ∧
    (∀ gp, getUserPermissionForVault db vid caller = .ok gp →
      (¬ (gp = some .admin ∨ gp = some .owner) →
        createVaultPermission db vid uid lvl caller = (.error .insufficientPermission, db)) ∧
      ((gp = some .admin ∨ gp = some .owner) →
        (db.users.find? (fun w => decide (w.id = uid)) = none →
          createVaultPermission db vid uid lvl caller = (.error .targetUserNotFound, db)) ∧
        (∀ tu, db.users.find? (fun w => decide (w.id = uid)) = some tu →
          (tu.is_active = false →
            createVaultPermission db vid uid lvl caller = (.error .targetUserInactive, db)) ∧
          (tu.is_active = true →
            (∀ q, db.perms.find? (fun q => decide (q.vault_id = vid ∧ q.user_id = uid)) =
                some q →
              createVaultPermission db vid uid lvl caller = (.error .duplicateGrant, db)) ∧
            (db.perms.find? (fun q => decide (q.vault_id = vid ∧ q.user_id = uid)) = none →
              createVaultPermission db vid uid lvl caller =
                (.ok { id := db.nextPermId, vault_id := vid, user_id := uid
                       permission := lvl, granted_by := caller },
                 { db with
                   perms := db.perms ++
                     [{ id := db.nextPermId, vault_id := vid, user_id := uid
                        permission := lvl, granted_by := caller }]
                   nextPermId := db.nextPermId + 1 })))))) := by
  constructor
  · intro hg
    unfold createVaultPermission
    rw [hg]
  · intro gp hg
    constructor
    · intro hc
      unfold createVaultPermission
      rw [hg]
      simp only [if_pos hc]
    · intro hc
      refine ⟨?_, ?_⟩
      · intro hu
        rcases hc with h | h <;> subst h <;> simp [createVaultPermission, hg, hu]
      · intro tu htu
        refine ⟨?_, ?_⟩
        · intro hin
          rcases hc with h | h <;> subst h <;>
            simp [createVaultPermission, hg, htu, hin]
        · intro hact
          refine ⟨?_, ?_⟩
          · intro q hq
            simp only [Bool.decide_and] at hq
            rcases hc with h | h <;> subst h <;>
              simp [createVaultPermission, hg, htu, hact, hq]
          · intro hq
            simp only [Bool.decide_and] at hq
            rcases hc with h | h <;> subst h <;>
              simp [createVaultPermission, hg, htu, hact, hq]

/-- Witness for C6: the owner of vault 1 grants user 5 a fresh `write` row in a
store where user 5 has no grant yet. -/
theorem createVaultPermission_cascade_witness :
    createVaultPermission sampleNoGrantDB 1 5 .write 2 =
      (.ok { id := 1, vault_id := 1, user_id := 5, permission := .write, granted_by := 2 },
       { sampleNoGrantDB with
         perms := [{ id := 1, vault_id := 1, user_id := 5
                     permission := .write, granted_by := 2 }]
         nextPermId := 2 }) :=
  (((((createVaultPermission_cascade sampleNoGrantDB 1 5 .write 2).2 (some .owner) rfl).2
    (Or.inr rfl)).2 ⟨5, true⟩ rfl).2 rfl).2 rfl

/-! ### Claim theorems: vault creation and the owner-grant invariant -/

theorem find?_append_right {α : Type} (l₁ l₂ : List α) (p : α → Bool)
    (h : ∀ a ∈ l₁, p a = false) : (l₁ ++ l₂).find? p = l₂.find? p := by
  induction l₁ with
  | nil => rfl
  | cons a as ih =>
    rw [List.cons_append, List.find?_cons_of_neg _ (by simp [h a (by simp)])]
    exact ih (fun x hx => h x (by simp [hx]))

theorem getUserVaults_filter_fresh (db₂ : DB) (old_vaults : List VaultRow)
    (old_perms : List PermRow) (newV : VaultRow) (ownerPerm : PermRow) (u : Nat)
    (hvs : db₂.vaults = old_vaults ++ [newV])
    (hps : db₂.perms = old_perms ++ [ownerPerm])
    (hVown : newV.owner_id = u) (hPusr : ownerPerm.user_id = u)
    (hPvid : ownerPerm.vault_id = newV.id)
    (hfreshV : ∀ v ∈ old_vaults, v.id ≠ newV.id)
    (hfreshP : ∀ p ∈ old_perms, p.vault_id ≠ newV.id) :
    (getUserVaults db₂ u).filter (fun e => decide (e.1.id = newV.id)) =
      [(newV, Permission.owner), (newV, ownerPerm.permission.toPermission)] := by
  unfold getUserVaults
  rw [hvs, hps]
  simp only [List.filter_append, List.map_append, List.filterMap_append]
  have hA1 : ((old_vaults.filter (fun v => decide (v.owner_id = u))).map
      (fun v => (v, Permission.owner))).filter (fun e => decide (e.1.id = newV.id)) = [] := by
    rw [List.filter_eq_nil_iff]
    intro e he
    obtain ⟨v, hv', rfl⟩ := List.mem_map.mp he
    simpa using hfreshV v (List.mem_filter.mp hv').1
  have hA2 : (([newV].filter (fun v => decide (v.owner_id = u))).map
      (fun v => (v, Permission.owner))).filter (fun e => decide (e.1.id = newV.id)) =
      [(newV, Permission.owner)] := by
    simp [hVown]
  have hB1 : ((old_perms.filter (fun p => decide (p.user_id = u))).filterMap
      (fun p => ((old_vaults ++ [newV]).find? (fun v => decide (v.id = p.vault_id))).map
        (fun v => (v, p.permission.toPermission)))).filter
      (fun e => decide (e.1.id = newV.id)) = [] := by
    rw [List.filter_eq_nil_iff]
    intro e he
    obtain ⟨p, hpmem, hfp⟩ := List.mem_filterMap.mp he
    obtain ⟨v, hfind, rfl⟩ := Option.map_eq_some'.mp hfp
    have hvid : v.id = p.vault_id := by simpa using List.find?_some hfind
    have hne : p.vault_id ≠ newV.id := hfreshP p (List.mem_filter.mp hpmem).1
    simp [hvid, hne]
  have hB2 : (([ownerPerm].filter (fun p => decide (p.user_id = u))).filterMap
      (fun p => ((old_vaults ++ [newV]).find? (fun v => decide (v.id = p.vault_id))).map
        (fun v => (v, p.permission.toPermission)))).filter
      (fun e => decide (e.1.id = newV.id)) =
      [(newV, ownerPerm.permission.toPermission)] := by
    have hfilter : [ownerPerm].filter (fun p => decide (p.user_id = u)) = [ownerPerm] := by
      simp [hPusr]
    rw [hfilter]
    have hfind : (old_vaults ++ [newV]).find?
        (fun v => decide (v.id = ownerPerm.vault_id)) = some newV := by
      rw [find?_append_right _ _ _ (by
        intro a ha
        simp only [decide_eq_false_iff_not]
        rw [hPvid]
        exact hfreshV a ha)]
      simp [List.find?, hPvid]
    rw [List.filterMap_cons, hfind]
    simp
  rw [hA1, hA2, hB1, hB2]
  rfl

/-- Counterexample for C2: starting from the empty store with one user,
`createVault` itself inserts an explicit grant row whose `user_id` equals the
new vault's `owner_id` (the tests assert this: "should create admin permission
for owner"), and `getUserVaults` then lists the owned vault twice. -/
theorem createVault_ownerGrant_counterexample :
    (⟨1, 1, 1, GrantLevel.admin, 1⟩ : PermRow) ∈
      (createVault sampleNoVaultDB "Personal" none false 1).2.perms ∧
    (createVault sampleNoVaultDB "Personal" none false 1).1.owner_id = 1 ∧
    ((getUserVaults (createVault sampleNoVaultDB "Personal" none false 1).2 1).filter
        (fun e => decide (e.1.id = 1))).length = 2 := by
  decide

/-- C2 (amended): `createVault` inserts an explicit `admin` grant row for the
owner (`granted_by` = owner), so the owner does receive an explicit grant; in
consequence a vault freshly created through `createVault` appears exactly twice
in `getUserVaults` for its owner: once tagged `owner` through the ownership
path and once tagged `admin` through the grant path. -/
theorem createVault_grants_owner_admin (db : DB) (name : String)
    (description : Option String) (sh : Bool) (u : Nat)
    (hfreshV : ∀ v ∈ db.vaults, v.id ≠ db.nextVaultId)
    (hfreshP : ∀ p ∈ db.perms, p.vault_id ≠ db.nextVaultId) :
    ({ id := db.nextPermId, vault_id := db.nextVaultId, user_id := u
       permission := .admin, granted_by := u } : PermRow) ∈
        (createVault db name description sh u).2.perms ∧
    (createVault db name description sh u).1.owner_id = u ∧
    (getUserVaults (createVault db name description sh u).2 u).filter
        (fun e => decide (e.1.id = (createVault db name description sh u).1.id)) =
      [((createVault db name description sh u).1, Permission.owner),
       ((createVault db name description sh u).1, Permission.admin)] := by
  refine ⟨by simp [createVault], rfl, ?_⟩
  exact getUserVaults_filter_fresh (createVault db name description sh u).2 db.vaults db.perms
    (createVault db name description sh u).1
    { id := db.nextPermId, vault_id := db.nextVaultId, user_id := u
      permission := .admin, granted_by := u } u rfl rfl rfl rfl rfl hfreshV hfreshP

/-- Witness for C2 (amended): the fresh-id hypotheses hold on the empty store,
and the double listing is observed concretely. -/
theorem createVault_grants_owner_admin_witness :
    (getUserVaults (createVault sampleNoVaultDB "Personal" none false 1).2 1).filter
        (fun e => decide (e.1.id = (createVault sampleNoVaultDB "Personal" none false 1).1.id)) =
      [((createVault sampleNoVaultDB "Personal" none false 1).1, Permission.owner),
       ((createVault sampleNoVaultDB "Personal" none false 1).1, Permission.admin)] :=
  (createVault_grants_owner_admin sampleNoVaultDB "Personal" none false 1
    (by intro v hv; simp [sampleNoVaultDB] at hv)
    (by intro p hp; simp [sampleNoVaultDB] at hp)).2.2

/-! ### Claim theorems: vault deletion and category deletion -/

/-- C7: `deleteVault` fails with the single combined not-found-or-forbidden
error whenever no vault row has both the requested id and the caller as owner
(so a nonexistent vault and a non-owner caller — even one holding an explicit
admin grant — are indistinguishable), leaving the store unchanged; on success
no item, category or grant row referencing the vault remains and the vault row
itself is gone. -/
theorem deleteVault_ownerOnly_cascade (db : DB) (vid u : Nat) :
    ((∀ V ∈ db.vaults, ¬ (V.id = vid ∧ V.owner_id = u)) →
      deleteVault db vid u = (.error .notFoundOrForbidden, db)) ∧
    ((∃ V ∈ db.vaults, V.id = vid ∧ V.owner_id = u) →
      ∃ db', deleteVault db vid u = (.ok (), db') ∧
        (∀ i ∈ db'.items, i.vault_id ≠ vid) ∧
        (∀ c ∈ db'.categories, c.vault_id ≠ vid) ∧
        (∀ p ∈ db'.perms, p.vault_id ≠ vid) ∧
        (∀ V ∈ db'.vaults, V.id ≠ vid)) := by
  constructor
  · intro h
    have hf : db.vaults.find? (fun v => decide (v.id = vid ∧ v.owner_id = u)) = none := by
      rw [List.find?_eq_none]
      intro x hx
      simpa using h x hx
    unfold deleteVault
    rw [hf]
  · intro h
    have hsome : (db.vaults.find? (fun v => decide (v.id = vid ∧ v.owner_id = u))).isSome := by
      rw [List.find?_isSome]
      obtain ⟨V, hV, hc⟩ := h
      exact ⟨V, hV, by simpa using hc⟩
    obtain ⟨V, hf⟩ := Option.isSome_iff_exists.mp hsome
    refine ⟨{ db with
        items := db.items.filter (fun i => decide (¬ i.vault_id = vid))
        categories := db.categories.filter (fun c => decide (¬ c.vault_id = vid))
        perms := db.perms.filter (fun p => decide (¬ p.vault_id = vid))
        vaults := db.vaults.filter (fun v => decide (¬ v.id = vid)) }, ?_, ?_, ?_, ?_, ?_⟩
    · unfold deleteVault
      rw [hf]
    · intro x hx
      simpa using (List.mem_filter.mp hx).2
    · intro x hx
      simpa using (List.mem_filter.mp hx).2
    · intro x hx
      simpa using (List.mem_filter.mp hx).2
    · intro x hx
      simpa using (List.mem_filter.mp hx).2

/-- Witness for C7: the owner deletes vault 1 and no vault row with id 1
survives. -/
theorem deleteVault_ownerOnly_cascade_witness :
    ∃ db', deleteVault sampleOwnedDB 1 1 = (.ok (), db') ∧
      (∀ V ∈ db'.vaults, V.id ≠ 1) :=
  ((deleteVault_ownerOnly_cascade sampleOwnedDB 1 1).2
    ⟨⟨1, "Mine", none, 1, false⟩, by decide, by decide⟩).elim
    (fun db' hd => ⟨db', hd.1, hd.2.2.2.2⟩)

/-- C8: when `deleteCategory` succeeds, the caller held `write` or better on
the category's vault; every item that referenced the category keeps all its
fields except `category_id`, which becomes null; no item is deleted (the item
count is preserved); the category row is removed; and users, vaults and grant
rows are untouched. -/
theorem deleteCategory_orphansItems (db : DB) (cid u : Nat) (db' : DB)
    (h : deleteCategory db cid u = (.ok (), db')) :
    (∃ c ∈ db.categories, c.id = cid ∧
      checkVaultPermissionCats db c.vault_id u .write = true) ∧
    db'.items = db.items.map (fun it =>
      if it.category_id = some cid then { it with category_id := none } else it) ∧
    (∀ it ∈ db.items, it.category_id = some cid →
      ({ it with category_id := none } : ItemRow) ∈ db'.items) ∧
    (∀ it ∈ db.items, it.category_id ≠ some cid → it ∈ db'.items) ∧
    db'.items.length = db.items.length ∧
    (∀ c ∈ db'.categories, c.id ≠ cid) ∧
    db'.users = db.users ∧ db'.vaults = db.vaults ∧ db'.perms = db.perms := by
  cases hf : db.categories.find? (fun c => decide (c.id = cid)) with
  | none =>
    simp only [deleteCategory, hf] at h
    simp at h
  | some c =>
    simp only [deleteCategory, hf] at h
    cases hchk : checkVaultPermissionCats db c.vault_id u .write with
    | false =>
      rw [hchk] at h
      simp at h
    | true =>
      rw [hchk] at h
      simp only [Bool.true_eq_false, if_false, Prod.mk.injEq, true_and] at h
      subst h
      refine ⟨⟨c, List.mem_of_find?_eq_some hf,
        by simpa using List.find?_some hf, hchk⟩, rfl, ?_, ?_, ?_, ?_, rfl, rfl, rfl⟩
      · intro it hit hcat
        exact List.mem_map.mpr ⟨it, hit, by rw [if_pos hcat]⟩
      · intro it hit hcat
        exact List.mem_map.mpr ⟨it, hit, by rw [if_neg hcat]⟩
      · exact List.length_map _ _
      · intro c' hc'
        simpa using (List.mem_filter.mp hc').2

/-- Witness for C8: deleting category 5 from `sampleCatDB` preserves the item
count. -/
theorem deleteCategory_orphansItems_witness :
    (deleteCategory sampleCatDB 5 1).2.items.length = sampleCatDB.items.length :=
  (deleteCategory_orphansItems sampleCatDB 5 1 (deleteCategory sampleCatDB 5 1).2
    rfl).2.2.2.2.1

/-! ### Claim theorems: credential item reads and search -/

/-- Counterexample for C9: with no item 99 in the store, `getItemById` returns
null (`.ok none`) instead of failing with a NotFound error. -/
theorem getItemById_missing_counterexample :
    getItemById (fun s => s) sampleNoVaultDB 99 1 = .ok none ∧
    ∀ e : DbError, getItemById (fun s => s) sampleNoVaultDB 99 1 ≠ .error e := by
  refine ⟨rfl, fun e h => ?_⟩
  rw [show getItemById (fun s => s) sampleNoVaultDB 99 1 = .ok none from rfl] at h
  exact Except.noConfusion h

/-- C9 (amended): `getItemById` returns null when no item with the id exists;
when the item exists the caller must hold `read` or better on the item's vault
(else the insufficient-permission error), and the item is returned with each
stored sensitive field decrypted. -/
theorem getItemById_behavior (dec : String → String) (db : DB) (iid u : Nat) :
    (db.items.find? (fun i => decide (i.id = iid)) = none →
      getItemById dec db iid u = .ok none) ∧
    (∀ it, db.items.find? (fun i => decide (i.id = iid)) = some it →
      (checkVaultPermissionItems db it.vault_id u .read = true →
        getItemById dec db iid u = .ok (some (decryptItem dec it))) ∧
      (checkVaultPermissionItems db it.vault_id u .read = false →
        getItemById dec db iid u = .error .insufficientPermission)) := by
  constructor
  · intro hf
    simp [getItemById, hf]
  · intro it hf
    constructor
    · intro hchk
      simp [getItemById, hf, hchk]
    · intro hchk
      simp [getItemById, hf, hchk]

/-- Witness for C9 (amended): the owner reads existing item 10 and gets it back
decrypted. -/
theorem getItemById_behavior_witness :
    getItemById (fun s => s) sampleCatDB 10 1 =
      .ok (some (decryptItem (fun s => s) sampleItemA)) :=
  ((getItemById_behavior (fun s => s) sampleCatDB 10 1).2 sampleItemA rfl).1 rfl

/-- Counterexample for C5: user 1 owns vaults 1 and 2 and item 10 in vault 2
satisfies every filter condition, yet a search without `vault_id` returns
nothing — the handler searches only the first owned vault. -/
theorem searchItems_firstVaultOnly_counterexample :
    searchItems (fun s => s) sampleTwoVaultDB emptyFilter 1 = .ok [] ∧
    sampleItemC ∈ sampleTwoVaultDB.items ∧
    (⟨2, "Second", none, 1, false⟩ : VaultRow) ∈ sampleTwoVaultDB.vaults ∧
    (⟨2, "Second", none, 1, false⟩ : VaultRow).owner_id = 1 ∧
    sampleItemC.vault_id = 2 ∧
    matchesFilters emptyFilter sampleItemC = true := by
  exact ⟨rfl, by decide, by decide, rfl, rfl, rfl⟩

/-- C5 (amended): when the filter carries no `vault_id`, `searchItems`
considers exactly the FIRST vault of the caller's owned vaults (in table
order): the result is empty when the caller owns no vault, and otherwise
consists precisely of the decrypted items of that first owned vault that
satisfy the category, type and title-query conditions; vaults beyond the first
and explicit grants are never consulted. -/
theorem searchItems_noVaultId (dec : String → String) (db : DB) (input : SearchInput)
    (u : Nat) (h : input.vault_id = none) :
    ∃ l, searchItems dec db input u = .ok l ∧
      (match db.vaults.filter (fun v => decide (v.owner_id = u)) with
       | [] => l = []
       | v0 :: _ =>
         (∀ it ∈ l, ∃ raw, raw ∈ db.items ∧ raw.vault_id = v0.id ∧
           matchesFilters input raw = true ∧ it = decryptItem dec raw) ∧
         (∀ raw ∈ db.items, raw.vault_id = v0.id → matchesFilters input raw = true →
           decryptItem dec raw ∈ l)) := by
  cases hf : db.vaults.filter (fun v => decide (v.owner_id = u)) with
  | nil =>
    refine ⟨[], ?_, rfl⟩
    simp [searchItems, h, hf]
  | cons v0 vs =>
    refine ⟨(db.items.filter
        (fun i => decide (i.vault_id = v0.id) && matchesFilters input i)).map
      (decryptItem dec), ?_, ?_, ?_⟩
    · simp [searchItems, h, hf]
    · intro it hit
      obtain ⟨raw, hraw, rfl⟩ := List.mem_map.mp hit
      have hm := List.mem_filter.mp hraw
      have hb := hm.2
      simp only [Bool.and_eq_true, decide_eq_true_eq] at hb
      exact ⟨raw, hm.1, hb.1, hb.2, rfl⟩
    · intro raw hraw hv hm
      exact List.mem_map.mpr ⟨raw, List.mem_filter.mpr ⟨hraw, by simp [hv, hm]⟩, rfl⟩

/-- Witness for C5 (amended): the characterization applied to the two-vault
store with the empty filter. -/
theorem searchItems_noVaultId_witness :
    ∃ l, searchItems (fun s => s) sampleTwoVaultDB emptyFilter 1 = .ok l :=
  (searchItems_noVaultId (fun s => s) sampleTwoVaultDB emptyFilter 1 rfl).elim
    (fun l hl => ⟨l, hl.1⟩)
